import Mathlib

set_option linter.all false

/-!
Verification development for the mohen unified request/response logger
(`src/logger.ts` plus its `logger-utils` helpers).

The embedding models JavaScript strings by Lean `String`, with the handful of
JS string primitives the source uses re-implemented over `List Char` by
structural recursion so that every definition evaluates inside the kernel.
JSON values (the results of the host `JSON.parse`, request/response bodies,
header values) are modelled by the inductive `Json`; the host `JSON.parse`
itself is an external collaborator and is threaded through as an explicit
parameter `jp : String → Option Json` (`none` models a parse exception).
-/

-- ===========================================================================
-- String primitives (models of the JavaScript string methods used by source)
-- ===========================================================================

/-- Model of JS `a.startsWith(b)` at the character-list level. -/
def charsLeadWith : List Char → List Char → Bool
  | [], _ => true
  | _ :: _, [] => false
  | a :: as, b :: bs => a == b && charsLeadWith as bs

/-- Model of JS `s.startsWith(pre)`. -/
def strStartsWith (s pre : String) : Bool := charsLeadWith pre.data s.data

/-- Model of JS `s.includes(sub)`. -/
def strHas (s sub : String) : Bool := s.data.tails.any (charsLeadWith sub.data)

/-- Split a character list on a separator character, keeping empty pieces,
as JS `s.split(sep)` does. The result is always non-empty. -/
def charsSplitOn (sep : Char) : List Char → List (List Char)
  | [] => [[]]
  | c :: cs =>
    let r := charsSplitOn sep cs
    if c == sep then [] :: r
    else
      match r with
      | h :: t => (c :: h) :: t
      | [] => [[c]]

/-- Model of JS `s.split(sep)` for a one-character separator (the source only
splits on `"\n"`, `","` and `"?"`). -/
def strSplitOnChar (sep : Char) (s : String) : List String :=
  (charsSplitOn sep s.data).map (fun l => ⟨l⟩)

/-- Whitespace recognized by the modelled `trim`. -/
def isWsChar (c : Char) : Bool := c == ' ' || c == '\n' || c == '\t' || c == '\r'

/-- Model of JS `s.trim()`. -/
def strTrim (s : String) : String :=
  ⟨((s.data.dropWhile isWsChar).reverse.dropWhile isWsChar).reverse⟩

/-- ASCII lower-casing of one character (header names are ASCII). -/
def lowerChar (c : Char) : Char :=
  if 65 ≤ c.toNat && c.toNat ≤ 90 then Char.ofNat (c.toNat + 32) else c

/-- ASCII upper-casing of one character. -/
def upperChar (c : Char) : Char :=
  if 97 ≤ c.toNat && c.toNat ≤ 122 then Char.ofNat (c.toNat - 32) else c

/-- Model of JS `s.toLowerCase()` (ASCII). -/
def strLower (s : String) : String := ⟨s.data.map lowerChar⟩

/-- Model of JS `s.toUpperCase()` (ASCII). -/
def strUpper (s : String) : String := ⟨s.data.map upperChar⟩

/-- Model of JS `s.slice(n)` for `n ≥ 0`. -/
def strDrop (s : String) (n : Nat) : String := ⟨s.data.drop n⟩

/-- Number of newline characters in a string: the number of newline-terminated
records in an append-only JSON-lines file. -/
def nlCount (s : String) : Nat := s.data.count '\n'

-- ===========================================================================
-- JSON values
-- ===========================================================================

/-- JSON-like runtime values: the results of the host `JSON.parse`, the bodies
handed to `res.json` / `res.send`, header values, and the shapes the logger
itself materializes (log entries, SSE event markers). -/
inductive Json where
  | null
  | bool (b : Bool)
  | num (n : Int)
  | str (s : String)
  | arr (xs : List Json)
  | obj (kvs : List (String × Json))
  deriving Repr

/-- Scalars: the values the redactor leaves untouched and does not recurse
into (JS `typeof` of the value not being object, plus `null`). -/
def Json.isScalar : Json → Bool
  | .null => true
  | .bool _ => true
  | .num _ => true
  | .str _ => true
  | .arr _ => false
  | .obj _ => false

-- ===========================================================================
-- Chunk decoder (`decodeChunk` from logger-utils)
-- ===========================================================================

/-- A payload handed to `res.write` / `res.end`: a JS string, a `Uint8Array`
of bytes (for example from a `TextEncoderStream`), a non-string object whose
only usable representation is its stringified form (for example a byte array
stringified to `"100,97,116,97"`), or `null`/`undefined`. -/
inductive Chunk where
  | str (s : String)
  | bytes (bs : List Nat)
  | objStr (s : String)
  | nullish
  deriving Repr

/-- JS truthiness of a chunk: `null`/`undefined` and the empty string are
falsy; any object (even an empty `Uint8Array`) is truthy. -/
def chunkTruthy : Chunk → Bool
  | .nullish => false
  | .str s => !(s == "")
  | .bytes _ => true
  | .objStr _ => true

/-- Structural UTF-8 decoder over a byte list; `none` on malformed input. -/
def utf8DecodeList : List Nat → Option (List Char)
  | [] => some []
  | b :: rest =>
    if b < 128 then (utf8DecodeList rest).map (fun cs => Char.ofNat b :: cs)
    else if b < 192 then none
    else if b < 224 then
      match rest with
      | b2 :: r2 =>
        if 128 ≤ b2 && b2 < 192 then
          (utf8DecodeList r2).map (fun cs => Char.ofNat ((b - 192) * 64 + (b2 - 128)) :: cs)
        else none
      | [] => none
    else if b < 240 then
      match rest with
      | b2 :: b3 :: r3 =>
        if (128 ≤ b2 && b2 < 192) && (128 ≤ b3 && b3 < 192) then
          (utf8DecodeList r3).map
            (fun cs => Char.ofNat ((b - 224) * 4096 + (b2 - 128) * 64 + (b3 - 128)) :: cs)
        else none
      | _ => none
    else if b < 248 then
      match rest with
      | b2 :: b3 :: b4 :: r4 =>
        if (128 ≤ b2 && b2 < 192) && (128 ≤ b3 && b3 < 192) && (128 ≤ b4 && b4 < 192) then
          (utf8DecodeList r4).map
            (fun cs =>
              Char.ofNat ((b - 240) * 262144 + (b2 - 128) * 4096 + (b3 - 128) * 64 + (b4 - 128)) :: cs)
        else none
      | _ => none
    else none

/-- UTF-8 decode a byte list to a string; `none` on malformed input. -/
def utf8Decode (bs : List Nat) : Option String := (utf8DecodeList bs).map (fun cs => ⟨cs⟩)

/-- Does the stringified object look like a comma-separated list of decimal
integers (the degenerate stringification of a byte array), e.g.
`"100,97,116,97"`? -/
def isCommaByteText (s : String) : Bool :=
  !(s == "") && (charsSplitOn ',' s.data).all (fun t => !t.isEmpty && t.all Char.isDigit)

/-- Read one comma-separated decimal field as a number. -/
def digitsToNat (cs : List Char) : Nat :=
  cs.foldl (fun acc c => acc * 10 + (c.toNat - 48)) 0

/-- The byte list encoded by a comma-separated decimal string. -/
def commaBytes (s : String) : List Nat :=
  (charsSplitOn ',' s.data).map digitsToNat

/-- Modelled from the spec: `decodeChunk` from `logger-utils` (the file is not
in the repository snapshot; only its unit tests and its callers in
`logger.ts` are). Per spec §4.1: `null`/`undefined` decodes to `""`; a byte
sequence is UTF-8 decoded; a string passes through; any other object is
stringified, and if the stringified form is a comma-separated decimal byte
list it is reinterpreted as bytes and UTF-8 decoded, falling back to the raw
stringified form on failure. Never throws. -/
def decodeChunk : Chunk → String
  | .nullish => ""
  | .str s => s
  | .bytes bs => (utf8Decode bs).getD ""
  | .objStr s => if isCommaByteText s then (utf8Decode (commaBytes s)).getD s else s

-- ===========================================================================
-- Stream sniffing (`looksLikeSSE` from logger-utils)
-- ===========================================================================

/-- Modelled from the spec: `looksLikeSSE` from `logger-utils` (file missing
from the snapshot). Per spec §4.2(c): decoded text is SSE-shaped when it
starts with, or contains a line starting with, `data:` or `event:`. -/
def looksLikeSSE (t : String) : Bool :=
  (strSplitOnChar '\n' t).any (fun l => strStartsWith l "data:" || strStartsWith l "event:")

-- ===========================================================================
-- Path filter (`matchPath` / `shouldLogPath` from logger-utils)
-- ===========================================================================

/-- Fuelled glob matcher: `*` matches any run of characters, every other
character matches literally; the whole pattern must cover the whole string.
Each step consumes pattern and/or string, so `|pattern| + |string| + 1` fuel
always suffices. -/
def globAux : Nat → List Char → List Char → Bool
  | 0, p, s => p.isEmpty && s.isEmpty
  | _ + 1, [], s => s.isEmpty
  | fuel + 1, c :: ps, s =>
    if c == '*' then
      match s with
      | [] => globAux fuel ps []
      | _ :: s2 => globAux fuel ps s || globAux fuel (c :: ps) s2
    else
      match s with
      | [] => false
      | d :: s2 => c == d && globAux fuel ps s2

/-- Modelled from the spec: `matchPath` from `logger-utils` (file missing from
the snapshot). Wildcard syntax per spec §6: literal path with `*` matching
any run of characters; the unit tests pin `matchPath("/api/*", "/api/users")`
true and `matchPath("/health", "/health/live")` false. -/
def matchPath (pat p : String) : Bool :=
  globAux (pat.data.length + p.data.length + 1) pat.data p.data

/-- Modelled from the spec: `shouldLogPath` from `logger-utils` (file missing
from the snapshot). Matching is against the path with any query string
stripped; a non-empty `includePaths` allow-list takes precedence over the
`ignorePaths` deny-list. -/
def shouldLogPath (p : String) (includePaths ignorePaths : List String) : Bool :=
  let base := (strSplitOnChar '?' p).headD p
  if !includePaths.isEmpty then includePaths.any (fun pat => matchPath pat base)
  else !(ignorePaths.any (fun pat => matchPath pat base))

-- ===========================================================================
-- SSE parser (`parseSSEChunk` from logger-utils)
-- ===========================================================================

/-- The synthetic marker emitted for the `[DONE]` termination sentinel. -/
def doneMarker : Json := .obj [("type", .str "done")]

/-- The parse-failure fallback payload wrapping the unparseable data text. -/
def rawFallback (d : String) : Json := .obj [("raw", .str d)]

/-- Modelled from the spec: per-line step of `parseSSEChunk` from
`logger-utils` (file missing from the snapshot), spec §4.3. A line starting
with `data: ` yields one event: the `[DONE]` sentinel yields the synthetic
done marker; otherwise the payload is handed to the host JSON parser `jp`,
falling back to a `raw`-wrapped payload when parsing fails. Any other line is
ignored. -/
def sseLineEvent (jp : String → Option Json) (line : String) : Option Json :=
  if strStartsWith line "data: " then
    let d := strTrim (strDrop line 6)
    if d == "[DONE]" then some doneMarker
    else
      match jp d with
      | some j => some j
      | none => some (rawFallback d)
  else none

/-- All events parsed from one decoded write payload, in line order. -/
def sseEvents (jp : String → Option Json) (raw : String) : List Json :=
  (strSplitOnChar '\n' raw).filterMap (sseLineEvent jp)

/-- The delta text an event contributes to the text accumulator: present
exactly when the event is an object whose `type` field is the string
`"text-delta"` and whose `delta` field is a string (spec §4.3). -/
def eventDelta : Json → Option String
  | .obj kvs =>
    match kvs.lookup "type" with
    | some (.str t) =>
      if t == "text-delta" then
        match kvs.lookup "delta" with
        | some (.str d) => some d
        | _ => none
      else none
    | _ => none
  | _ => none

/-- The ambiguous return shape of the source parser (spec §4.3 edge-case
policy): no events is `null`, one event is the bare payload, several events
are the JS array of payloads. -/
def packEvents : List Json → Option Json
  | [] => none
  | [e] => some e
  | es => some (.arr es)

/-- Modelled from the spec: `parseSSEChunk(raw, textDeltas)` from
`logger-utils` (file missing from the snapshot), spec §4.3. Returns the
packed parse result together with the delta-text accumulator extended, in
event order, by the `delta` of every `text-delta` event of this payload. -/
def parseSSEChunk (jp : String → Option Json) (raw : String) (acc : List String) :
    Option Json × List String :=
  let evs := sseEvents jp raw
  (packEvents evs, acc ++ evs.filterMap eventDelta)

-- ===========================================================================
-- Redactor (`redactObject` from logger-utils / `UnifiedLogger.redact`)
-- ===========================================================================

mutual

/-- Modelled from the spec: `redactObject` from `logger-utils` (file missing
from the snapshot); identical in algorithm to the inline
`UnifiedLogger.redact` of the earlier revision kept in `logger.ts` and to
spec §4.7: map keys whose lower-cased form is in the redaction set have their
value replaced by `"[REDACTED]"`, other values are recursed into, scalars
pass through. -/
def redactObject (set : List String) : Json → Json
  | .null => .null
  | .bool b => .bool b
  | .num n => .num n
  | .str s => .str s
  | .arr xs => .arr (redactArr set xs)
  | .obj kvs => .obj (redactKVs set kvs)

/-- Redaction mapped over a JS array. -/
def redactArr (set : List String) : List Json → List Json
  | [] => []
  | j :: js => redactObject set j :: redactArr set js

/-- Redaction over the entries of a JS object. -/
def redactKVs (set : List String) : List (String × Json) → List (String × Json)
  | [] => []
  | (k, v) :: rest =>
    (k, if set.contains (strLower k) then .str "[REDACTED]" else redactObject set v)
      :: redactKVs set rest

end

-- ===========================================================================
-- Rotating log store (`UnifiedLogger.checkAndRotate` / `write`)
-- ===========================================================================

/-- JS `array.slice(-k)`: the last `k` elements — except that `k = 0` gives
`slice(-0) = slice(0)`, the whole array. -/
def sliceNeg (k : Nat) (xs : List String) : List String :=
  if k == 0 then xs else xs.drop (xs.length - k)

/-- JS `array.join("\n")`. -/
def joinNl : List String → String
  | [] => ""
  | [x] => x
  | x :: xs => x ++ "\n" ++ joinNl xs

/-- `checkAndRotate` from `logger.ts`: when the file exists and its byte size
exceeds the budget, re-write it keeping `lines.slice(-floor(lineCount * 0.25))`
of `content.trim().split("\n")`, newline-terminated. The file is modelled as
`Option String` (`none` = absent); `Math.floor(n * 0.25)` is exact in floats,
so it is `n / 4` in `Nat`. -/
def checkAndRotate (maxSizeBytes : Nat) : Option String → Option String
  | none => none
  | some content =>
    if content.utf8ByteSize > maxSizeBytes then
      let lines := strSplitOnChar '\n' (strTrim content)
      let keepCount := lines.length / 4
      some (joinNl (sliceNeg keepCount lines) ++ "\n")
    else some content

/-- The file-level effect of `UnifiedLogger.write`: rotate if oversized, then
append the serialized record as one newline-terminated line
(`fs.appendFileSync` creates the file when absent). The serialized line is
a parameter: serialization is the host `JSON.stringify` of the redacted
entry. -/
def appendLine (maxSizeBytes : Nat) (file : Option String) (line : String) : Option String :=
  let f := checkAndRotate maxSizeBytes file
  some ((f.getD "") ++ line ++ "\n")


-- ===========================================================================
-- Log entries (the `LogEntry` interface of `logger.ts`)
-- ===========================================================================

/-- `LogEntry.error`. -/
structure ErrVal where
  message : String
  stack : Option String
  deriving Repr

/-- `LogEntry.request`: tRPC entries carry only `body`; Express entries also
carry `query` and, when configured, the inbound headers. An absent `body`
models `req.body` being `undefined` (dropped by `JSON.stringify`). -/
structure ReqInfoRec where
  body : Option Json
  query : Option Json
  headers : Option (List (String × String))
  deriving Repr

/-- `LogEntry.response`. -/
structure RespInfoRec where
  body : Option Json
  streaming : Bool
  chunks : Option (List Json)
  text : Option String
  deriving Repr

/-- `LogEntry` from `logger.ts`. `type` is `"http"` or `"trpc"`. -/
structure LogEntry where
  timestamp : String
  requestId : String
  type : String
  method : String
  path : String
  statusCode : Option Nat
  duration : Nat
  request : Option ReqInfoRec
  response : Option RespInfoRec
  error : Option ErrVal
  metadata : Option (List (String × Json))
  deriving Repr

-- ===========================================================================
-- Express middleware (`UnifiedLogger.expressMiddleware`, current revision)
-- ===========================================================================

/-- The header argument accepted by `checkContentTypeForSSE`: either a flat
alternating key/value array or a keyed object. -/
inductive HeadersArg where
  | flat (xs : List Json)
  | keyed (kvs : List (String × Json))
  deriving Repr

/-- One flat-array key/value pair indicates SSE when the key is the string
`content-type` (case-insensitive) and the value is a string containing
`text/event-stream`. -/
def ctPairSSE (k v : Json) : Bool :=
  match k, v with
  | .str ks, .str vs => strLower ks == "content-type" && strHas vs "text/event-stream"
  | _, _ => false

/-- The flat-array scan of `checkContentTypeForSSE`: indices stepped by two,
`headers[i]` as key and `headers[i+1]` as value. -/
def flatHeadersSSE : List Json → Bool
  | k :: v :: rest => ctPairSSE k v || flatHeadersSSE rest
  | _ => false

/-- The keyed-object scan of `checkContentTypeForSSE`. -/
def keyedHeadersSSE (kvs : List (String × Json)) : Bool :=
  kvs.any (fun p =>
    match p.2 with
    | .str vs => strLower p.1 == "content-type" && strHas vs "text/event-stream"
    | _ => false)

/-- `checkContentTypeForSSE` from `expressMiddleware`: `null`/absent headers
indicate nothing. -/
def headersIndicateSSE : Option HeadersArg → Bool
  | some (.flat xs) => flatHeadersSSE xs
  | some (.keyed kvs) => keyedHeadersSSE kvs
  | none => false

/-- Second/third argument of `res.writeHead`: absent, a status-message
string, or a headers argument. -/
inductive WHArg where
  | undef
  | msg (s : String)
  | hdrs (h : HeadersArg)
  deriving Repr

/-- The header-argument resolution of the `writeHead` wrapper:
`maybeHeaders` wins; otherwise `statusMessageOrHeaders` when it is an
object. -/
def resolveWHArg : WHArg → WHArg → Option HeadersArg
  | _, .hdrs h => some h
  | .hdrs h, _ => some h
  | _, _ => none

/-- `res.setHeader` indicates SSE when the name is `content-type`
(case-insensitive) and the value is a string containing
`text/event-stream`. -/
def setHeaderSSE (name : String) (value : Json) : Bool :=
  match value with
  | .str vs => strLower name == "content-type" && strHas vs "text/event-stream"
  | _ => false

/-- The response-side operations a handler can invoke on the wrapped
response, plus the metadata-attachment call. -/
inductive Ev where
  | setHeader (name : String) (value : Json)
  | writeHead (status : Nat) (a2 : WHArg) (a3 : WHArg)
  | write (c : Chunk)
  | json (body : Json)
  | send (body : Json)
  | endR (c : Option Chunk)
  | attachMeta (m : List (String × Json))
  deriving Repr

/-- The completion calls: the ones that can finalize a non-streaming exchange
(`res.json`, `res.send`) or any exchange (`res.end`). -/
def isCompletion : Ev → Bool
  | .json _ => true
  | .send _ => true
  | .endR _ => true
  | _ => false

/-- The inbound request data captured by the middleware. -/
structure ReqData where
  method : String
  path : String
  accept : Option String
  body : Option Json
  query : Json
  headers : List (String × String)
  deriving Repr

/-- The per-exchange environment: the host JSON parser, the request, the
`includeHeaders` option, and the completion-time identifiers (timestamp and
correlation id from the clock/RNG, duration). -/
structure MwCtx where
  jp : String → Option Json
  req : ReqData
  includeHeaders : Bool
  ts : String
  rid : String
  dur : Nat

/-- The per-exchange mutable state closed over by the wrappers in
`expressMiddleware`. -/
structure MwState where
  isSSE : Bool
  chunks : List Json
  textDeltas : List String
  responseBody : Option Json
  logged : Bool
  status : Nat
  metadata : List (String × Json)
  emitted : List LogEntry
  deriving Repr

/-- Exchange start: SSE iff the inbound `Accept` header equals
`text/event-stream`; empty chunk list, empty delta accumulator, empty
metadata, nothing logged, status 200. -/
def initState (ctx : MwCtx) : MwState :=
  { isSSE := ctx.req.accept == some "text/event-stream"
    chunks := []
    textDeltas := []
    responseBody := none
    logged := false
    status := 200
    metadata := []
    emitted := [] }

/-- The captured `requestInfo` (body, query, and headers when configured). -/
def requestInfoRec (ctx : MwCtx) : ReqInfoRec :=
  { body := ctx.req.body
    query := some ctx.req.query
    headers := if ctx.includeHeaders then some ctx.req.headers else none }

/-- `metadata` is attached to an entry only when non-empty. -/
def metaOpt (m : List (String × Json)) : Option (List (String × Json)) :=
  if m.isEmpty then none else some m

/-- The non-streaming entry built by `logResponse` / the non-SSE `res.end`
branch. -/
def plainEntry (ctx : MwCtx) (s : MwState) : LogEntry :=
  { timestamp := ctx.ts
    requestId := ctx.rid
    type := "http"
    method := ctx.req.method
    path := ctx.req.path
    statusCode := some s.status
    duration := ctx.dur
    request := some (requestInfoRec ctx)
    response := some { body := s.responseBody, streaming := false, chunks := none, text := none }
    error := none
    metadata := metaOpt s.metadata }

/-- The streaming entry built by the SSE `res.end` branch: the chunk list,
plus the aggregated `text` exactly when at least one delta was collected. -/
def sseEntry (ctx : MwCtx) (s : MwState) : LogEntry :=
  { timestamp := ctx.ts
    requestId := ctx.rid
    type := "http"
    method := ctx.req.method
    path := ctx.req.path
    statusCode := some s.status
    duration := ctx.dur
    request := some (requestInfoRec ctx)
    response :=
      some { body := none, streaming := true, chunks := some s.chunks
             text := if s.textDeltas.isEmpty then none else some (String.join s.textDeltas) }
    error := none
    metadata := metaOpt s.metadata }

/-- `logResponse` from `expressMiddleware`: a no-op after the first
finalization, otherwise it latches `logged` and hands one non-streaming
entry to the store. -/
def logResponse (ctx : MwCtx) (s : MwState) : MwState :=
  if s.logged then s
  else { s with logged := true, emitted := s.emitted ++ [plainEntry ctx s] }

/-- JS `Object.assign(old, new)`: existing keys keep their position but take
the new value; new keys are appended. -/
def assignKVs (old new : List (String × Json)) : List (String × Json) :=
  old.map (fun p => (p.1, (new.lookup p.1).getD p.2))
    ++ new.filter (fun q => !(old.any (fun p => p.1 == q.1)))

/-- One wrapped response-side call of `expressMiddleware` (current revision
of `logger.ts`), as a state transformer. -/
def stepEv (ctx : MwCtx) (s : MwState) : Ev → MwState
  | .setHeader n v =>
    if setHeaderSSE n v then { s with isSSE := true } else s
  | .writeHead st a2 a3 =>
    let s1 := { s with status := st }
    if headersIndicateSSE (resolveWHArg a2 a3) then { s1 with isSSE := true } else s1
  | .write c =>
    if chunkTruthy c then
      let t := decodeChunk c
      let s1 := if !s.isSSE && looksLikeSSE t then { s with isSSE := true } else s
      if s1.isSSE then
        let pr := parseSSEChunk ctx.jp t s1.textDeltas
        { s1 with textDeltas := pr.2, chunks := s1.chunks ++ pr.1.toList }
      else s1
    else s
  | .json b =>
    logResponse ctx { s with responseBody := some b }
  | .send b =>
    if s.logged then s
    else
      let rb :=
        match b with
        | .str bs => (ctx.jp bs).getD (.str bs)
        | x => x
      logResponse ctx { s with responseBody := some rb }
  | .endR c =>
    if s.logged then s
    else
      let s1 := { s with logged := true }
      if s1.isSSE then
        let s2 :=
          match c with
          | some ch =>
            if chunkTruthy ch then
              let pr := parseSSEChunk ctx.jp (decodeChunk ch) s1.textDeltas
              { s1 with textDeltas := pr.2, chunks := s1.chunks ++ pr.1.toList }
            else s1
          | none => s1
        { s2 with emitted := s2.emitted ++ [sseEntry ctx s2] }
      else { s1 with emitted := s1.emitted ++ [plainEntry ctx s1] }
  | .attachMeta m => { s with metadata := assignKVs s.metadata m }

/-- Run one intercepted exchange body (the calls of the handler in order). -/
def mwRun (ctx : MwCtx) (evts : List Ev) : MwState :=
  evts.foldl (stepEv ctx) (initState ctx)

/-- The full middleware including the path-filter gate: when the request path
is filtered out, no wrapper is installed and nothing is ever emitted. -/
def runMiddleware (includePaths ignorePaths : List String) (ctx : MwCtx) (evts : List Ev) :
    List LogEntry :=
  if shouldLogPath ctx.req.path includePaths ignorePaths then (mwRun ctx evts).emitted
  else []

-- ===========================================================================
-- tRPC middleware (`UnifiedLogger.trpcMiddleware`)
-- ===========================================================================

/-- What the downstream continuation resolves to. -/
structure TrpcResult where
  ok : Bool
  data : Option Json
  error : Option ErrVal
  deriving Repr

/-- Settlement of the downstream continuation: resolution or rejection. -/
inductive TrpcOutcome where
  | ok (r : TrpcResult)
  | threw (e : ErrVal)
  deriving Repr

/-- The call descriptor: symbolic path, call type (`query` / `mutation` /
`subscription`), input payload, and the context metadata at settlement
time. -/
structure TrpcOpts where
  path : String
  callType : String
  input : Json
  ctxMeta : List (String × Json)
  deriving Repr

/-- `trpcMiddleware` from `logger.ts`: gate on the path filter, then emit one
entry per settled call — on resolution with `statusCode` 200/500 by
`result.ok` and `error` copied from a reported error, on rejection with
`statusCode` 500 and the message/stack of the thrown error — and hand the
original outcome (value or exception) back unchanged. -/
def trpcRun (includePaths ignorePaths : List String) (ts rid : String) (dur : Nat)
    (o : TrpcOpts) (outcome : TrpcOutcome) : List LogEntry × TrpcOutcome :=
  if !shouldLogPath o.path includePaths ignorePaths then ([], outcome)
  else
    match outcome with
    | .ok r =>
      ([{ timestamp := ts
          requestId := rid
          type := "trpc"
          method := strUpper o.callType
          path := o.path
          statusCode := some (if r.ok then 200 else 500)
          duration := dur
          request := some { body := some o.input, query := none, headers := none }
          response := some { body := r.data, streaming := false, chunks := none, text := none }
          error := r.error
          metadata := metaOpt o.ctxMeta }], .ok r)
    | .threw e =>
      ([{ timestamp := ts
          requestId := rid
          type := "trpc"
          method := strUpper o.callType
          path := o.path
          statusCode := some 500
          duration := dur
          request := some { body := some o.input, query := none, headers := none }
          response := none
          error := some e
          metadata := metaOpt o.ctxMeta }], .threw e)

-- ===========================================================================
-- Specification-side accounting helpers
-- ===========================================================================

/-- The SSE events parsed by one wrapped call from state `s`: the `res.write`
wrapper parses the decoded payload whenever the exchange is (or this very
payload makes it) streaming, and the `res.end` wrapper parses a final truthy
payload on the streaming branch of an exchange not yet finalized. -/
def stepParsedEvents (ctx : MwCtx) (s : MwState) : Ev → List Json
  | .write c =>
    if chunkTruthy c then
      let t := decodeChunk c
      if s.isSSE || looksLikeSSE t then sseEvents ctx.jp t else []
    else []
  | .endR (some ch) =>
    if !s.logged && s.isSSE && chunkTruthy ch then sseEvents ctx.jp (decodeChunk ch) else []
  | _ => []

/-- All SSE events parsed over a run of wrapped calls, in arrival order. -/
def parsedEventsFrom (ctx : MwCtx) (s : MwState) : List Ev → List Json
  | [] => []
  | e :: es => stepParsedEvents ctx s e ++ parsedEventsFrom ctx (stepEv ctx s e) es

/-- The three write-time streaming signals of the classifier: an explicit
`setHeader` of an event-stream content type, a `writeHead` whose resolved
header argument names one, or content sniffing of the decoded truthy
payload. -/
def sseSignal : Ev → Bool
  | .setHeader n v => setHeaderSSE n v
  | .writeHead _ a2 a3 => headersIndicateSSE (resolveWHArg a2 a3)
  | .write c => chunkTruthy c && looksLikeSSE (decodeChunk c)
  | _ => false

-- ===========================================================================
-- The serialized record as a JSON value, and paths into it
-- ===========================================================================

/-- An optional field of a JS object literal: `JSON.stringify` drops keys
whose value is `undefined`. -/
def optField (k : String) : Option Json → List (String × Json)
  | none => []
  | some v => [(k, v)]

/-- The `request` sub-object of a serialized entry. -/
def reqInfoToJson (r : ReqInfoRec) : Json :=
  .obj (optField "body" r.body ++ optField "query" r.query
    ++ optField "headers" (r.headers.map (fun hs => .obj (hs.map (fun p => (p.1, .str p.2))))))

/-- The `response` sub-object of a serialized entry. -/
def respInfoToJson (r : RespInfoRec) : Json :=
  .obj (optField "body" r.body ++ [("streaming", .bool r.streaming)]
    ++ optField "chunks" (r.chunks.map .arr) ++ optField "text" (r.text.map .str))

/-- The `error` sub-object of a serialized entry. -/
def errToJson (e : ErrVal) : Json :=
  .obj ([("message", .str e.message)] ++ optField "stack" (e.stack.map .str))

/-- The JS object handed to the redactor and then to `JSON.stringify` by
`UnifiedLogger.write`. -/
def entryToJson (en : LogEntry) : Json :=
  .obj ([("timestamp", .str en.timestamp), ("requestId", .str en.requestId),
         ("type", .str en.type), ("method", .str en.method), ("path", .str en.path)]
    ++ optField "statusCode" (en.statusCode.map (fun n => .num n))
    ++ [("duration", .num en.duration)]
    ++ optField "request" (en.request.map reqInfoToJson)
    ++ optField "response" (en.response.map respInfoToJson)
    ++ optField "error" (en.error.map errToJson)
    ++ optField "metadata" (en.metadata.map .obj))

/-- The record as serialized on the emitted line: `UnifiedLogger.write`
redacts the whole entry and then stringifies it (stringification itself is
the host `JSON.stringify` and is kept at the JSON-value level here). -/
def writeRecordJson (set : List String) (en : LogEntry) : Json :=
  redactObject set (entryToJson en)

/-- One step into a nested JSON value: an object key or an array index. -/
inductive PathEl where
  | key (k : String)
  | idx (i : Nat)
  deriving Repr

/-- Follow a key/index path into a JSON value. -/
def getPath : Json → List PathEl → Option Json
  | j, [] => some j
  | .obj kvs, .key k :: p =>
    match kvs.lookup k with
    | some v => getPath v p
    | none => none
  | .arr xs, .idx i :: p =>
    match xs[i]? with
    | some v => getPath v p
    | none => none
  | _, _ :: _ => none

/-- The object keys traversed by a path. -/
def pathKeys : List PathEl → List String :=
  List.filterMap (fun pe => match pe with | .key k => some k | .idx _ => none)

/-- No key traversed by the path is itself in the redaction set. -/
def cleanKeys (set : List String) (p : List PathEl) : Bool :=
  (pathKeys p).all (fun k => !(set.contains (strLower k)))

-- ===========================================================================
-- Concrete fixtures used by the witness theorems
-- ===========================================================================

/-- A host JSON parser that fails on everything. -/
def jpNone : String → Option Json := fun _ => none

/-- A host JSON parser recognizing the one payload used by the streaming
witness. -/
def jpTD : String → Option Json := fun s =>
  if s == "td" then some (.obj [("type", .str "text-delta"), ("delta", .str "Hi")]) else none

/-- A minimal GET request fixture. -/
def reqFix (p : String) (acc : Option String) : ReqData :=
  { method := "GET", path := p, accept := acc, body := none, query := .obj [], headers := [] }

/-- A minimal exchange environment fixture. -/
def ctxFix (jp : String → Option Json) (p : String) (acc : Option String) : MwCtx :=
  { jp := jp, req := reqFix p acc, includeHeaders := false
    ts := "2024-01-15T10:30:00.000Z", rid := "id-1", dur := 0 }

/-- A log entry fixture carrying a redactable key inside `metadata`. -/
def entryFix : LogEntry :=
  { timestamp := "2024-01-15T10:30:00.000Z", requestId := "id-1", type := "http"
    method := "GET", path := "/api/users", statusCode := some 200, duration := 0
    request := some { body := some (.obj [("name", .str "John")]), query := some (.obj []), headers := none }
    response := some { body := some (.obj [("ok", .bool true)]), streaming := false, chunks := none, text := none }
    error := none
    metadata := some [("Authorization", .str "Bearer abc"), ("source", .str "svc")] }

-- ===========================================================================
-- Emission bookkeeping lemmas
-- ===========================================================================

lemma stepEv_logged (ctx : MwCtx) (s : MwState) (e : Ev) :
    (stepEv ctx s e).logged = (s.logged || isCompletion e) := by
  cases e <;>
    simp only [stepEv, isCompletion, logResponse] <;>
    (repeat' split) <;> simp_all

lemma stepEv_emitLen (ctx : MwCtx) (s : MwState) (e : Ev) :
    (stepEv ctx s e).emitted.length =
      s.emitted.length + (if !s.logged && isCompletion e then 1 else 0) := by
  cases e <;>
    simp only [stepEv, isCompletion, logResponse] <;>
    (repeat' split) <;> simp_all

lemma foldl_logged (ctx : MwCtx) (evts : List Ev) : ∀ s : MwState,
    (evts.foldl (stepEv ctx) s).logged = (s.logged || evts.any isCompletion) := by
  induction evts with
  | nil => intro s; simp
  | cons e es ih =>
    intro s
    simp [List.foldl_cons, List.any_cons, ih, stepEv_logged, Bool.or_assoc]

lemma foldl_emitLen (ctx : MwCtx) (evts : List Ev) : ∀ s : MwState,
    (evts.foldl (stepEv ctx) s).emitted.length =
      s.emitted.length + (if !s.logged && evts.any isCompletion then 1 else 0) := by
  induction evts with
  | nil => intro s; simp
  | cons e es ih =>
    intro s
    rw [List.foldl_cons, ih, stepEv_emitLen, stepEv_logged]
    cases hl : s.logged <;> cases hc : isCompletion e <;> cases hes : es.any isCompletion <;>
      simp [List.any_cons, hc, hes] <;> omega

/-- C1. Every exchange intercepted by the Express middleware hands exactly one
record to the store once any completion call (`res.json`, `res.send`,
`res.end`) occurs — no matter how many writes or repeated completion calls
the handler makes — and every intercepted tRPC call hands over exactly one
record whether the continuation resolves or throws; later completion calls
emit nothing (an exchange filtered out by the path gate is not intercepted
and emits nothing at all). -/
theorem claim_C1_single_emission :
    (∀ (includePaths ignorePaths : List String) (ctx : MwCtx) (evts : List Ev),
      (runMiddleware includePaths ignorePaths ctx evts).length =
        if shouldLogPath ctx.req.path includePaths ignorePaths && evts.any isCompletion
        then 1 else 0) ∧
    (∀ (includePaths ignorePaths : List String) (ts rid : String) (dur : Nat)
        (o : TrpcOpts) (outcome : TrpcOutcome),
      (trpcRun includePaths ignorePaths ts rid dur o outcome).1.length =
        if shouldLogPath o.path includePaths ignorePaths then 1 else 0) := by
  constructor
  · intro inc ign ctx evts
    unfold runMiddleware mwRun
    cases hg : shouldLogPath ctx.req.path inc ign with
    | true => simp [foldl_emitLen, initState]
    | false => simp
  · intro inc ign ts rid dur o outcome
    unfold trpcRun
    cases hg : shouldLogPath o.path inc ign with
    | true => cases outcome <;> simp
    | false => simp

/-- C4. Per-exchange streaming classification is monotonic: `isSSE` starts as
the test of the inbound `Accept` header against `text/event-stream`, and
every wrapped operation leaves it equal to its old value OR-ed with the
(explicitly characterized) write-time signal of that operation — an explicit
`setHeader` of an event-stream content type, a `writeHead` carrying one in
flat or keyed form, or content sniffing of the decoded chunk — so it can be
flipped to true by any of the three signals and is never set back to
false. -/
theorem claim_C4_classifier_monotone :
    (∀ ctx : MwCtx, (initState ctx).isSSE = (ctx.req.accept == some "text/event-stream")) ∧
    (∀ (ctx : MwCtx) (s : MwState) (e : Ev),
      (stepEv ctx s e).isSSE = (s.isSSE || sseSignal e)) := by
  constructor
  · intro ctx; rfl
  · intro ctx s e
    cases e <;>
      simp only [stepEv, sseSignal, logResponse] <;>
      (repeat' split) <;> simp_all

/-- C10. When content sniffing is the first signal classifying the exchange
as streaming — the state is not yet streaming, the written chunk is truthy,
and its decoded text looks like SSE — that very write is itself parsed: the
step flips `isSSE`, appends the packed parse of this chunk to the chunk
sequence, and appends the text-delta payloads of this chunk to the delta
accumulator. -/
theorem claim_C10_sniffing_write_parsed (ctx : MwCtx) (s : MwState) (c : Chunk)
    (hS : s.isSSE = false) (hT : chunkTruthy c = true)
    (hL : looksLikeSSE (decodeChunk c) = true) :
    (stepEv ctx s (.write c)).isSSE = true ∧
    (stepEv ctx s (.write c)).chunks =
      s.chunks ++ (packEvents (sseEvents ctx.jp (decodeChunk c))).toList ∧
    (stepEv ctx s (.write c)).textDeltas =
      s.textDeltas ++ (sseEvents ctx.jp (decodeChunk c)).filterMap eventDelta := by
  simp [stepEv, hS, hT, hL, parseSSEChunk]

/-- C10 witness: sniffing on a concrete bare-SSE write (no headers ever
set) parses the data line of that same write into the chunk sequence. -/
theorem claim_C10_witness :
    ((initState (ctxFix jpNone "/api/auto" none)).isSSE = false ∧
      chunkTruthy (.str "data: x\n\n") = true ∧
      looksLikeSSE (decodeChunk (.str "data: x\n\n")) = true) ∧
    ((stepEv (ctxFix jpNone "/api/auto" none) (initState (ctxFix jpNone "/api/auto" none))
        (.write (.str "data: x\n\n"))).isSSE = true ∧
      (stepEv (ctxFix jpNone "/api/auto" none) (initState (ctxFix jpNone "/api/auto" none))
        (.write (.str "data: x\n\n"))).chunks =
        (initState (ctxFix jpNone "/api/auto" none)).chunks ++
          (packEvents (sseEvents jpNone (decodeChunk (.str "data: x\n\n")))).toList ∧
      (stepEv (ctxFix jpNone "/api/auto" none) (initState (ctxFix jpNone "/api/auto" none))
        (.write (.str "data: x\n\n"))).textDeltas =
        (initState (ctxFix jpNone "/api/auto" none)).textDeltas ++
          (sseEvents jpNone (decodeChunk (.str "data: x\n\n"))).filterMap eventDelta) :=
  ⟨⟨by decide, by decide, by decide⟩,
    claim_C10_sniffing_write_parsed (ctxFix jpNone "/api/auto" none)
      (initState (ctxFix jpNone "/api/auto" none)) (.str "data: x\n\n")
      (by decide) (by decide) (by decide)⟩

/-- C3. Every SSE data line whose payload after the `data: ` prefix trims to
the literal `[DONE]` makes the parser emit the synthetic done marker
`{type: "done"}` for that line — the marker also appears among the events the
chunk parser emits for the surrounding payload, the packed parse result is
non-null, and the line can never produce the `{raw: ...}` parse-failure
fallback. -/
theorem claim_C3_done_sentinel (jp : String → Option Json) (raw : String)
    (acc : List String) (line : String)
    (hmem : line ∈ strSplitOnChar '\n' raw)
    (hpre : strStartsWith line "data: " = true)
    (hdone : strTrim (strDrop line 6) = "[DONE]") :
    sseLineEvent jp line = some doneMarker ∧
    doneMarker ∈ sseEvents jp raw ∧
    (parseSSEChunk jp raw acc).1 ≠ none ∧
    ∀ d, sseLineEvent jp line ≠ some (rawFallback d) := by
  have hline : sseLineEvent jp line = some doneMarker := by
    simp [sseLineEvent, hpre, hdone]
  have hmem2 : doneMarker ∈ sseEvents jp raw := by
    unfold sseEvents
    exact List.mem_filterMap.mpr ⟨line, hmem, hline⟩
  refine ⟨hline, hmem2, ?_, ?_⟩
  · unfold parseSSEChunk packEvents
    rcases hevs : sseEvents jp raw with _ | ⟨e, es⟩
    · rw [hevs] at hmem2; simp at hmem2
    · cases es <;> simp
  · intro d hcontra
    rw [hline] at hcontra
    simp [doneMarker, rawFallback] at hcontra

/-- C3 witness: the concrete chunk `data: [DONE]\n` with a failing JSON
parser yields the done marker and never the raw fallback. -/
theorem claim_C3_witness :
    ("data: [DONE]" ∈ strSplitOnChar '\n' "data: [DONE]\n" ∧
      strStartsWith "data: [DONE]" "data: " = true ∧
      strTrim (strDrop "data: [DONE]" 6) = "[DONE]") ∧
    (sseLineEvent jpNone "data: [DONE]" = some doneMarker ∧
      doneMarker ∈ sseEvents jpNone "data: [DONE]\n" ∧
      (parseSSEChunk jpNone "data: [DONE]\n" []).1 ≠ none ∧
      ∀ d, sseLineEvent jpNone "data: [DONE]" ≠ some (rawFallback d)) :=
  ⟨⟨by decide, by decide, by decide⟩,
    claim_C3_done_sentinel jpNone "data: [DONE]\n" [] "data: [DONE]"
      (by decide) (by decide) (by decide)⟩

-- ===========================================================================
-- Delta accumulation lemmas
-- ===========================================================================

lemma stepEv_deltas (ctx : MwCtx) (s : MwState) (e : Ev) :
    (stepEv ctx s e).textDeltas =
      s.textDeltas ++ (stepParsedEvents ctx s e).filterMap eventDelta := by
  cases e <;>
    simp only [stepEv, stepParsedEvents, logResponse, parseSSEChunk] <;>
    (repeat' split) <;> simp_all

lemma parsedEventsFrom_append (ctx : MwCtx) (l1 l2 : List Ev) : ∀ s : MwState,
    parsedEventsFrom ctx s (l1 ++ l2) =
      parsedEventsFrom ctx s l1 ++ parsedEventsFrom ctx (l1.foldl (stepEv ctx) s) l2 := by
  induction l1 with
  | nil => intro s; simp [parsedEventsFrom]
  | cons e es ih => intro s; simp [parsedEventsFrom, ih, List.append_assoc]

lemma foldl_deltas (ctx : MwCtx) (evts : List Ev) : ∀ s : MwState,
    (evts.foldl (stepEv ctx) s).textDeltas =
      s.textDeltas ++ (parsedEventsFrom ctx s evts).filterMap eventDelta := by
  induction evts with
  | nil => intro s; simp [parsedEventsFrom]
  | cons e es ih =>
    intro s
    simp [List.foldl_cons, parsedEventsFrom, ih, stepEv_deltas, List.filterMap_append]

lemma stepEv_nc (ctx : MwCtx) (s : MwState) (e : Ev) (h : isCompletion e = false) :
    (stepEv ctx s e).emitted = s.emitted ∧ (stepEv ctx s e).logged = s.logged := by
  cases e <;> simp_all [isCompletion] <;>
    simp only [stepEv] <;> (repeat' split) <;> simp_all

lemma foldl_nc (ctx : MwCtx) (evts : List Ev) :
    ∀ s : MwState, evts.all (fun e => !isCompletion e) = true →
      (evts.foldl (stepEv ctx) s).emitted = s.emitted ∧
      (evts.foldl (stepEv ctx) s).logged = s.logged := by
  induction evts with
  | nil => intro s _; simp
  | cons e es ih =>
    intro s h
    simp only [List.all_cons, Bool.and_eq_true, Bool.not_eq_true'] at h
    simp only [List.foldl_cons]
    have h1 := stepEv_nc ctx s e h.1
    have h2 := ih (stepEv ctx s e) (by simpa using h.2)
    exact ⟨h2.1.trans h1.1, h2.2.trans h1.2⟩

lemma stepEv_endR_sse (ctx : MwCtx) (s : MwState) (c : Option Chunk)
    (hlog : s.logged = false) (hS : s.isSSE = true) :
    ∃ s2 : MwState,
      stepEv ctx s (.endR c) = { s2 with emitted := s.emitted ++ [sseEntry ctx s2] } ∧
      s2.emitted = s.emitted := by
  cases c with
  | none =>
    refine ⟨{ s with logged := true }, ?_, rfl⟩
    simp [stepEv, hlog, hS]
  | some ch =>
    by_cases ht : chunkTruthy ch = true
    · refine ⟨{ s with
                logged := true,
                textDeltas := (parseSSEChunk ctx.jp (decodeChunk ch) s.textDeltas).2,
                chunks := s.chunks ++ (parseSSEChunk ctx.jp (decodeChunk ch) s.textDeltas).1.toList },
        ?_, rfl⟩
      simp [stepEv, hlog, hS, ht]
    · refine ⟨{ s with logged := true }, ?_, rfl⟩
      simp [stepEv, hlog, hS, ht]

lemma stepEv_endR_plain (ctx : MwCtx) (s : MwState) (c : Option Chunk)
    (hlog : s.logged = false) (hS : s.isSSE = false) :
    stepEv ctx s (.endR c) =
      { s with
        logged := true,
        emitted := s.emitted ++ [plainEntry ctx { s with logged := true }] } := by
  simp [stepEv, hlog, hS]

/-- C2. For a streaming exchange (the handler makes no premature completion
call and finalizes with `res.end`), the `response.text` of the emitted record
equals the concatenation, in arrival order, of the `delta` fields of all
parsed `text-delta` events of the exchange, and the `text` field is present
exactly when at least one such event occurred. -/
theorem claim_C2_text_delta_aggregation (ctx : MwCtx) (evts : List Ev) (c : Option Chunk)
    (h : evts.all (fun e => !isCompletion e) = true) :
    ∀ en ∈ (mwRun ctx (evts ++ [Ev.endR c])).emitted,
      en.response.map RespInfoRec.streaming = some true →
      en.response.bind RespInfoRec.text =
        (let ds := (parsedEventsFrom ctx (initState ctx) (evts ++ [Ev.endR c])).filterMap eventDelta
         if ds.isEmpty then none else some (String.join ds)) := by
  intro en hen hstream
  have hnc := foldl_nc ctx evts (initState ctx) h
  unfold mwRun at hen
  rw [List.foldl_append] at hen
  simp only [List.foldl_cons, List.foldl_nil] at hen
  set sStar := evts.foldl (stepEv ctx) (initState ctx) with hsdef
  have hlog : sStar.logged = false := hnc.2.trans rfl
  have hem : sStar.emitted = [] := hnc.1.trans rfl
  have hfin : (stepEv ctx sStar (Ev.endR c)).textDeltas =
      (parsedEventsFrom ctx (initState ctx) (evts ++ [Ev.endR c])).filterMap eventDelta := by
    rw [stepEv_deltas, hsdef, foldl_deltas, parsedEventsFrom_append]
    simp [parsedEventsFrom, List.filterMap_append, initState]
  by_cases hS : sStar.isSSE = true
  · obtain ⟨s2, hshape, hs2em⟩ := stepEv_endR_sse ctx sStar c hlog hS
    rw [hshape] at hen hfin
    simp only [hem, List.nil_append, List.mem_singleton] at hen
    subst hen
    simp only [sseEntry, Option.bind] at hstream ⊢
    rw [← hfin]
  · rw [stepEv_endR_plain ctx sStar c hlog (by simpa using hS)] at hen
    simp only [hem, List.nil_append, List.mem_singleton] at hen
    subst hen
    simp [plainEntry] at hstream

/-- C2 witness: a concrete sniffed streaming exchange with one `text-delta`
event aggregates that delta into `response.text`. -/
theorem claim_C2_witness :
    ([Ev.write (.str "data: td\n\n")].all (fun e => !isCompletion e) = true) ∧
    (∀ en ∈ (mwRun (ctxFix jpTD "/api/auto" none)
        ([Ev.write (.str "data: td\n\n")] ++ [Ev.endR none])).emitted,
      en.response.map RespInfoRec.streaming = some true →
      en.response.bind RespInfoRec.text =
        (let ds := (parsedEventsFrom (ctxFix jpTD "/api/auto" none)
            (initState (ctxFix jpTD "/api/auto" none))
            ([Ev.write (.str "data: td\n\n")] ++ [Ev.endR none])).filterMap eventDelta
         if ds.isEmpty then none else some (String.join ds))) :=
  ⟨by decide,
    claim_C2_text_delta_aggregation (ctxFix jpTD "/api/auto" none)
      [Ev.write (.str "data: td\n\n")] none (by decide)⟩

-- ===========================================================================
-- Path propagation lemmas
-- ===========================================================================

lemma stepEv_path (ctx : MwCtx) (s : MwState) (e : Ev) :
    ∀ en ∈ (stepEv ctx s e).emitted, en ∈ s.emitted ∨ en.path = ctx.req.path := by
  cases e <;>
    simp only [stepEv, logResponse] <;>
    (repeat' split) <;>
    intro en hen <;>
    first
    | exact Or.inl hen
    | (simp only [List.mem_append, List.mem_singleton] at hen
       rcases hen with h | h
       · exact Or.inl h
       · subst h; simp [plainEntry, sseEntry])

lemma foldl_path (ctx : MwCtx) (evts : List Ev) :
    ∀ s : MwState, (∀ en ∈ s.emitted, en.path = ctx.req.path) →
      ∀ en ∈ (evts.foldl (stepEv ctx) s).emitted, en.path = ctx.req.path := by
  induction evts with
  | nil => intro s hs; simpa using hs
  | cons e es ih =>
    intro s hs
    refine ih (stepEv ctx s e) ?_
    intro en hen
    rcases stepEv_path ctx s e en hen with h | h
    · exact hs en h
    · exact h

/-- C7. With `includePaths = ["/api/*"]`, an exchange for `/health` is not
intercepted and produces zero records, while an exchange for
`/api/users?x=1` produces exactly one record (once a completion call occurs)
whose `path` field is exactly `/api/users?x=1` — the query string is stripped
only for wildcard matching and preserved in the emitted record. -/
theorem claim_C7_include_path_filtering :
    (∀ (ctx : MwCtx) (evts : List Ev), ctx.req.path = "/health" →
      runMiddleware ["/api/*"] [] ctx evts = []) ∧
    (∀ (ctx : MwCtx) (evts : List Ev), ctx.req.path = "/api/users?x=1" →
      (runMiddleware ["/api/*"] [] ctx evts).length =
        (if evts.any isCompletion then 1 else 0) ∧
      ∀ en ∈ runMiddleware ["/api/*"] [] ctx evts, en.path = "/api/users?x=1") := by
  constructor
  · intro ctx evts hpath
    unfold runMiddleware
    rw [hpath]
    simp [(by decide : shouldLogPath "/health" ["/api/*"] [] = false)]
  · intro ctx evts hpath
    have hg : shouldLogPath ctx.req.path ["/api/*"] [] = true := by
      rw [hpath]; decide
    constructor
    · unfold runMiddleware mwRun
      rw [hg]
      simp [foldl_emitLen, initState]
    · intro en hen
      unfold runMiddleware at hen
      rw [hg] at hen
      simp only [if_pos] at hen
      have := foldl_path ctx evts (initState ctx) (by simp [initState]) en hen
      rw [← hpath]; exact this

/-- C7 witness: concrete exchanges on `/health` and `/api/users?x=1` with a
single `res.json` completion. -/
theorem claim_C7_witness :
    (runMiddleware ["/api/*"] [] (ctxFix jpNone "/health" none) [Ev.json (.obj [])] = []) ∧
    ((runMiddleware ["/api/*"] [] (ctxFix jpNone "/api/users?x=1" none)
        [Ev.json (.obj [])]).length =
      (if [Ev.json (.obj [])].any isCompletion then 1 else 0) ∧
     ∀ en ∈ runMiddleware ["/api/*"] [] (ctxFix jpNone "/api/users?x=1" none)
        [Ev.json (.obj [])], en.path = "/api/users?x=1") :=
  ⟨claim_C7_include_path_filtering.1 (ctxFix jpNone "/health" none) [Ev.json (.obj [])] rfl,
    claim_C7_include_path_filtering.2 (ctxFix jpNone "/api/users?x=1" none)
      [Ev.json (.obj [])] rfl⟩

/-- C8. For every tRPC call whose downstream continuation throws (and which
the path gate logs), the middleware emits exactly one record of kind rpc
(source field `type = "trpc"`) with `statusCode` 500, `method` the uppercased
call type, `request.body` the input, `error.message`/`error.stack` taken from
the thrown error and no `response` field, and then re-throws the original
exception unchanged. -/
theorem claim_C8_trpc_error_logging (includePaths ignorePaths : List String)
    (ts rid : String) (dur : Nat) (o : TrpcOpts) (e : ErrVal)
    (hg : shouldLogPath o.path includePaths ignorePaths = true) :
    trpcRun includePaths ignorePaths ts rid dur o (.threw e) =
      ([{ timestamp := ts,
          requestId := rid,
          type := "trpc",
          method := strUpper o.callType,
          path := o.path,
          statusCode := some 500,
          duration := dur,
          request := some { body := some o.input, query := none, headers := none },
          response := none,
          error := some e,
          metadata := metaOpt o.ctxMeta }], .threw e) := by
  unfold trpcRun
  rw [hg]
  simp

/-- C8 witness: a concrete rejected `mutation` call is logged with status
500, uppercased method, the input as request body and the thrown error, and
the rejection is handed back unchanged. -/
theorem claim_C8_witness :
    (shouldLogPath "createUser" [] [] = true) ∧
    trpcRun [] [] "2024-01-15T10:30:00.000Z" "id-2" 0
        { path := "createUser", callType := "mutation",
          input := .obj [("email", .str "a@b.c")], ctxMeta := [] }
        (.threw { message := "boom", stack := some "trace" }) =
      ([{ timestamp := "2024-01-15T10:30:00.000Z",
          requestId := "id-2",
          type := "trpc",
          method := strUpper "mutation",
          path := "createUser",
          statusCode := some 500,
          duration := 0,
          request := some { body := some (.obj [("email", .str "a@b.c")]), query := none,
                            headers := none },
          response := none,
          error := some { message := "boom", stack := some "trace" },
          metadata := metaOpt [] }], .threw { message := "boom", stack := some "trace" }) :=
  ⟨by decide,
    claim_C8_trpc_error_logging [] [] "2024-01-15T10:30:00.000Z" "id-2" 0
      { path := "createUser", callType := "mutation",
        input := .obj [("email", .str "a@b.c")], ctxMeta := [] }
      { message := "boom", stack := some "trace" } (by decide)⟩

-- ===========================================================================
-- Redaction lemmas
-- ===========================================================================

lemma redactKVs_eq_map (set : List String) (kvs : List (String × Json)) :
    redactKVs set kvs =
      kvs.map (fun p =>
        (p.1, if set.contains (strLower p.1) then .str "[REDACTED]" else redactObject set p.2)) := by
  induction kvs with
  | nil => rfl
  | cons p rest ih => cases p; simp [redactKVs, ih]

lemma redactArr_eq_map (set : List String) (xs : List Json) :
    redactArr set xs = xs.map (redactObject set) := by
  induction xs with
  | nil => rfl
  | cons j js ih => simp [redactArr, ih]

lemma lookup_mapSnd (f : String → Json → Json) (kvs : List (String × Json)) (k : String) :
    (kvs.map (fun p => (p.1, f p.1 p.2))).lookup k = (kvs.lookup k).map (f k) := by
  induction kvs with
  | nil => rfl
  | cons p rest ih =>
    rcases p with ⟨k1, v1⟩
    simp only [List.map_cons, List.lookup]
    by_cases h : k == k1
    · have hk : k = k1 := by simpa using h
      subst hk
      simp [h]
    · simp only [h]
      simpa using ih

lemma cleanKeys_key_cons (set : List String) (k1 : String) (rest : List PathEl)
    (hc : cleanKeys set (PathEl.key k1 :: rest) = true) :
    set.contains (strLower k1) = false ∧ cleanKeys set rest = true := by
  simp only [cleanKeys, pathKeys, List.filterMap_cons, List.all_cons,
    Bool.and_eq_true, Bool.not_eq_true'] at hc ⊢
  exact hc

lemma cleanKeys_idx_cons (set : List String) (i : Nat) (rest : List PathEl)
    (hc : cleanKeys set (PathEl.idx i :: rest) = true) :
    cleanKeys set rest = true := by
  simpa [cleanKeys, pathKeys, List.filterMap_cons] using hc

lemma redactObject_obj_lookup (set : List String) (kvs : List (String × Json)) (k : String) :
    (redactKVs set kvs).lookup k =
      (kvs.lookup k).map
        (fun v => if set.contains (strLower k) then Json.str "[REDACTED]" else redactObject set v) := by
  rw [redactKVs_eq_map]
  exact lookup_mapSnd
    (fun kk vv => if set.contains (strLower kk) then Json.str "[REDACTED]" else redactObject set vv)
    kvs k

lemma redact_getPath_redacted (set : List String) :
    ∀ (p : List PathEl) (j : Json) (k : String) (v : Json),
      cleanKeys set p = true → set.contains (strLower k) = true →
      getPath j (p ++ [PathEl.key k]) = some v →
      getPath (redactObject set j) (p ++ [PathEl.key k]) = some (.str "[REDACTED]") := by
  intro p
  induction p with
  | nil =>
    intro j k v _ hk hget
    cases j with
    | obj kvs =>
      simp only [List.nil_append, getPath] at hget ⊢
      rcases hlk : kvs.lookup k with _ | v0
      · rw [hlk] at hget; simp at hget
      · have hk2 : strLower k ∈ set := by simpa using hk
        simp [redactObject, getPath, redactObject_obj_lookup, hlk, hk2]
    | null => simp [getPath] at hget
    | bool b => simp [getPath] at hget
    | num n => simp [getPath] at hget
    | str s => simp [getPath] at hget
    | arr xs => simp [getPath] at hget
  | cons pe rest ih =>
    intro j k v hc hk hget
    cases pe with
    | key k1 =>
      obtain ⟨hc1, hcr⟩ := cleanKeys_key_cons set k1 rest hc
      cases j with
      | obj kvs =>
        simp only [List.cons_append, getPath] at hget ⊢
        rcases hlk : kvs.lookup k1 with _ | v1
        · rw [hlk] at hget; simp at hget
        · rw [hlk] at hget
          simp only [redactObject, getPath, redactObject_obj_lookup, hlk, Option.map, hc1,
            Bool.false_eq_true, if_false]
          exact ih v1 k v hcr hk hget
      | null => simp [getPath] at hget
      | bool b => simp [getPath] at hget
      | num n => simp [getPath] at hget
      | str s => simp [getPath] at hget
      | arr xs => simp [getPath] at hget
    | idx i =>
      have hcr := cleanKeys_idx_cons set i rest hc
      cases j with
      | arr xs =>
        simp only [List.cons_append, getPath] at hget ⊢
        rcases hlk : xs[i]? with _ | v1
        · rw [hlk] at hget; simp at hget
        · rw [hlk] at hget
          simp only [redactObject, getPath, redactArr_eq_map, List.getElem?_map, hlk, Option.map]
          exact ih v1 k v hcr hk hget
      | null => simp [getPath] at hget
      | bool b => simp [getPath] at hget
      | num n => simp [getPath] at hget
      | str s => simp [getPath] at hget
      | obj kvs => simp [getPath] at hget

lemma redact_getPath_scalar (set : List String) :
    ∀ (p : List PathEl) (j : Json) (v : Json),
      cleanKeys set p = true → getPath j p = some v → v.isScalar = true →
      getPath (redactObject set j) p = some v := by
  intro p
  induction p with
  | nil =>
    intro j v _ hget hscalar
    simp only [getPath, Option.some_inj] at hget
    subst hget
    cases j <;> simp_all [Json.isScalar, redactObject, getPath]
  | cons pe rest ih =>
    intro j v hc hget hscalar
    cases pe with
    | key k1 =>
      obtain ⟨hc1, hcr⟩ := cleanKeys_key_cons set k1 rest hc
      cases j with
      | obj kvs =>
        simp only [getPath] at hget ⊢
        rcases hlk : kvs.lookup k1 with _ | v1
        · rw [hlk] at hget; simp at hget
        · rw [hlk] at hget
          simp only [redactObject, getPath, redactObject_obj_lookup, hlk, Option.map, hc1,
            Bool.false_eq_true, if_false]
          exact ih v1 v hcr hget hscalar
      | null => simp [getPath] at hget
      | bool b => simp [getPath] at hget
      | num n => simp [getPath] at hget
      | str s => simp [getPath] at hget
      | arr xs => simp [getPath] at hget
    | idx i =>
      have hcr := cleanKeys_idx_cons set i rest hc
      cases j with
      | arr xs =>
        simp only [getPath] at hget ⊢
        rcases hlk : xs[i]? with _ | v1
        · rw [hlk] at hget; simp at hget
        · rw [hlk] at hget
          simp only [redactObject, getPath, redactArr_eq_map, List.getElem?_map, hlk, Option.map]
          exact ih v1 v hcr hget hscalar
      | null => simp [getPath] at hget
      | bool b => simp [getPath] at hget
      | num n => simp [getPath] at hget
      | str s => simp [getPath] at hget
      | obj kvs => simp [getPath] at hget

/-- C9. Redaction applies to the entire record at write time, not only to the
request and response bodies: in the JSON value the store serializes
(`writeRecordJson`, the redacted `entryToJson` of the entry), any key at any
depth — reached through ancestors that are not themselves redacted — whose
lower-cased form is in the configured redact set has its value replaced by
`"[REDACTED]"`, and every scalar reached through non-redacted keys is left
unchanged. -/
theorem claim_C9_whole_record_redaction (set : List String) (en : LogEntry) :
    (∀ (p : List PathEl) (k : String) (v : Json),
      cleanKeys set p = true → set.contains (strLower k) = true →
      getPath (entryToJson en) (p ++ [PathEl.key k]) = some v →
      getPath (writeRecordJson set en) (p ++ [PathEl.key k]) = some (.str "[REDACTED]")) ∧
    (∀ (p : List PathEl) (v : Json),
      cleanKeys set p = true → getPath (entryToJson en) p = some v → v.isScalar = true →
      getPath (writeRecordJson set en) p = some v) := by
  constructor
  · intro p k v hc hk hget
    exact redact_getPath_redacted set p (entryToJson en) k v hc hk hget
  · intro p v hc hget hscalar
    exact redact_getPath_scalar set p (entryToJson en) v hc hget hscalar

/-- C9 witness: with the redact set `{authorization}`, the `Authorization`
key nested inside the `metadata` of the fixture entry is replaced in the
serialized record, while the scalar `method` field is preserved. -/
theorem claim_C9_witness :
    ((cleanKeys ["authorization"] [PathEl.key "metadata"] = true ∧
      List.contains ["authorization"] (strLower "Authorization") = true ∧
      getPath (entryToJson entryFix) [PathEl.key "metadata", PathEl.key "Authorization"] =
        some (.str "Bearer abc")) ∧
      getPath (writeRecordJson ["authorization"] entryFix)
        [PathEl.key "metadata", PathEl.key "Authorization"] = some (.str "[REDACTED]")) ∧
    ((cleanKeys ["authorization"] [PathEl.key "method"] = true ∧
      getPath (entryToJson entryFix) [PathEl.key "method"] = some (.str "GET") ∧
      Json.isScalar (.str "GET") = true) ∧
      getPath (writeRecordJson ["authorization"] entryFix) [PathEl.key "method"] =
        some (.str "GET")) :=
  ⟨⟨⟨by decide, by decide, by rfl⟩,
    (claim_C9_whole_record_redaction ["authorization"] entryFix).1
      [PathEl.key "metadata"] "Authorization" (.str "Bearer abc")
      (by decide) (by decide) (by rfl)⟩,
   ⟨⟨by decide, by rfl, by decide⟩,
    (claim_C9_whole_record_redaction ["authorization"] entryFix).2
      [PathEl.key "method"] (.str "GET") (by decide) (by rfl) (by decide)⟩⟩

-- ===========================================================================
-- Rotation lemmas
-- ===========================================================================

lemma appendLine_rotate_eq (maxB : Nat) (content line : String)
    (h : content.utf8ByteSize > maxB) :
    appendLine maxB (some content) line =
      some (joinNl (sliceNeg ((strSplitOnChar '\n' (strTrim content)).length / 4)
              (strSplitOnChar '\n' (strTrim content))) ++ "\n" ++ line ++ "\n") := by
  simp [appendLine, checkAndRotate, h]

lemma nlCount_append (a b : String) : nlCount (a ++ b) = nlCount a + nlCount b := by
  simp [nlCount, String.data_append, List.count_append]

lemma nlCount_joinNl (ls : List String) : (∀ l ∈ ls, nlCount l = 0) → ls ≠ [] →
    nlCount (joinNl ls) = ls.length - 1 := by
  induction ls with
  | nil => intro _ hne; exact absurd rfl hne
  | cons x xs ih =>
    intro h _
    cases xs with
    | nil => simpa [joinNl] using h x (by simp)
    | cons y ys =>
      have hx := h x (by simp)
      have hys : ∀ l ∈ y :: ys, nlCount l = 0 := fun l hl => h l (by simp [hl])
      have hrec := ih hys (by simp)
      show nlCount (x ++ "\n" ++ joinNl (y :: ys)) = (y :: ys).length + 1 - 1
      rw [nlCount_append, nlCount_append, hx, hrec]
      have h1 : nlCount "\n" = 1 := by decide
      rw [h1]
      simp [List.length_cons]
      omega

/-- C5 counterexample. The claim predicts that a rotation-triggering append
onto a one-line file retains floor(1 × 0.25) = 0 prior lines, producing just
the new line `"b\n"`; the `lines.slice(-0)` in the code keeps the whole array, so
the old line survives. -/
theorem claim_C5_counterexample :
    "a\n".utf8ByteSize > 1 ∧
    (strSplitOnChar '\n' (strTrim "a\n")).length = 1 ∧
    appendLine 1 (some "a\n") "b" = some "a\nb\n" ∧
    appendLine 1 (some "a\n") "b" ≠ some "b\n" :=
  ⟨by decide, by decide, by decide, by decide⟩

/-- C5 (amended). Whenever append finds the destination file existing with
byte size strictly greater than the configured maximum, it rewrites the file
retaining the floor(n × 0.25) most recent of its n (trim-split) lines when
that count is at least one, but retaining all n lines when
floor(n × 0.25) = 0 (n ≤ 3, since `slice(-0)` is `slice(0)`), then appends
the new serialized record as one newline-terminated line. -/
theorem claim_C5_rotation_retention (maxB : Nat) (content line : String)
    (h : content.utf8ByteSize > maxB) :
    appendLine maxB (some content) line =
      some (joinNl
          (let ls := strSplitOnChar '\n' (strTrim content)
           if ls.length / 4 = 0 then ls else ls.drop (ls.length - ls.length / 4))
        ++ "\n" ++ line ++ "\n") := by
  rw [appendLine_rotate_eq maxB content line h]
  by_cases hk : (strSplitOnChar '\n' (strTrim content)).length / 4 = 0
  · simp [sliceNeg, hk]
  · simp [sliceNeg, beq_iff_eq, hk]

/-- C5 witness: a five-line oversized file is rewritten to its single most
recent line (floor(5 × 0.25) = 1) before the new line is appended. -/
theorem claim_C5_witness :
    "a\nb\nc\nd\ne\n".utf8ByteSize > 3 ∧
    appendLine 3 (some "a\nb\nc\nd\ne\n") "f" =
      some (joinNl
          (let ls := strSplitOnChar '\n' (strTrim "a\nb\nc\nd\ne\n")
           if ls.length / 4 = 0 then ls else ls.drop (ls.length - ls.length / 4))
        ++ "\n" ++ "f" ++ "\n") :=
  ⟨by decide, claim_C5_rotation_retention 3 "a\nb\nc\nd\ne\n" "f" (by decide)⟩

/-- C6 counterexample. With five prior lines the claim predicts
ceil(5 × 0.25) + 1 = 3 resulting lines, but the code keeps
floor(5 × 0.25) = 1 line and appends one, leaving 2. -/
theorem claim_C6_counterexample :
    "a\nb\nc\nd\ne\n".utf8ByteSize > 1 ∧
    (strSplitOnChar '\n' (strTrim "a\nb\nc\nd\ne\n")).length = 5 ∧
    appendLine 1 (some "a\nb\nc\nd\ne\n") "f" = some "e\nf\n" ∧
    nlCount ((appendLine 1 (some "a\nb\nc\nd\ne\n") "f").getD "") ≠ (5 + 3) / 4 + 1 :=
  ⟨by decide, by decide, by decide, by decide⟩

/-- C6 (amended). After a rotation-triggering append (prior byte size over
the maximum, n prior newline-free lines), the resulting file contains
exactly floor(n × 0.25) + 1 newline-terminated lines when n ≥ 4, and n + 1
lines when n ≤ 3 (rotation then retains everything). -/
theorem claim_C6_rotation_line_count (maxB : Nat) (content line : String)
    (hsize : content.utf8ByteSize > maxB)
    (hlines : ∀ l ∈ strSplitOnChar '\n' (strTrim content), nlCount l = 0)
    (hline : nlCount line = 0)
    (hn : 1 ≤ (strSplitOnChar '\n' (strTrim content)).length) :
    nlCount ((appendLine maxB (some content) line).getD "") =
      (let n := (strSplitOnChar '\n' (strTrim content)).length
       if n ≤ 3 then n else n / 4) + 1 := by
  rw [appendLine_rotate_eq maxB content line hsize]
  set ls := strSplitOnChar '\n' (strTrim content) with hls
  set n := ls.length with hndef
  have hkzero : ∀ l ∈ sliceNeg (n / 4) ls, nlCount l = 0 := by
    intro l hl
    apply hlines
    rw [hls] at hl ⊢
    unfold sliceNeg at hl
    split at hl
    · exact hl
    · exact List.mem_of_mem_drop hl
  have hklen : (sliceNeg (n / 4) ls).length = if n ≤ 3 then n else n / 4 := by
    unfold sliceNeg
    by_cases h0 : n / 4 = 0
    · rw [if_pos (by simpa using h0), if_pos (by omega)]
    · rw [if_neg (by simpa using h0), if_neg (by omega), List.length_drop]
      omega
  have hkne : sliceNeg (n / 4) ls ≠ [] := by
    have : 0 < (sliceNeg (n / 4) ls).length := by
      rw [hklen]; split <;> omega
    exact List.length_pos.mp this
  simp only [Option.getD_some]
  rw [nlCount_append, nlCount_append, nlCount_append,
    nlCount_joinNl (sliceNeg (n / 4) ls) hkzero hkne, hline, hklen]
  have h1 : nlCount "\n" = 1 := by decide
  rw [h1]
  split <;> omega

/-- C6 witness: a six-line oversized file rotates to floor(6 × 0.25) = 1
retained line, so the resulting file holds exactly 2 lines. -/
theorem claim_C6_witness :
    ("p\nq\nr\ns\nt\nu\n".utf8ByteSize > 2 ∧ nlCount "w" = 0 ∧
      1 ≤ (strSplitOnChar '\n' (strTrim "p\nq\nr\ns\nt\nu\n")).length) ∧
    nlCount ((appendLine 2 (some "p\nq\nr\ns\nt\nu\n") "w").getD "") =
      (let n := (strSplitOnChar '\n' (strTrim "p\nq\nr\ns\nt\nu\n")).length
       if n ≤ 3 then n else n / 4) + 1 :=
  ⟨⟨by decide, by decide, by decide⟩,
    claim_C6_rotation_line_count 2 "p\nq\nr\ns\nt\nu\n" "w"
      (by decide) (by decide) (by decide) (by decide)⟩
